import Mathlib

/-!
Verification of the fab-pr-pipeline merge-readiness engine.

This file gives a shallow embedding, in Lean 4, of the pure decision logic of
the `fab-pr-pipeline` Go program: the merge-readiness evaluator
(`mergeAllowed`), the CI rollup aggregation (`overallChecksState`), the CI
failure categorizer (`classifyCIFailure`), the per-PR circuit breaker
(`CircuitBreaker`), the error classifier (`classifyError`), the retry policy
(`Retryable` / `RetryableWithResult`), the Discord message rendering and
truncation, and the notification dedup gate.

Go strings are modelled as Lean `String` values (sequences of characters; the
source only ever slices and measures ASCII payload text, so byte/char length
coincide on the inputs of interest).  The Go `strings` standard-library
functions used by the source are re-modelled below over character lists so
that all definitions reduce in the kernel; the case-mapping functions use the
ASCII case table (the source's inputs are ASCII enum words and keyword lists).
Go maps with zero-value defaults are modelled as total functions with
default `0`; Go `delete` is writing the default back.
-/

/-! ## Go `strings` standard-library model -/

/-- ASCII lower-casing of one character, as `unicode.ToLower` acts on ASCII. -/
def charToLower (c : Char) : Char :=
  if 65 ≤ c.toNat ∧ c.toNat ≤ 90 then Char.ofNat (c.toNat + 32) else c

/-- ASCII upper-casing of one character, as `unicode.ToUpper` acts on ASCII. -/
def charToUpper (c : Char) : Char :=
  if 97 ≤ c.toNat ∧ c.toNat ≤ 122 then Char.ofNat (c.toNat - 32) else c

/-- Model of Go `strings.ToLower` (ASCII case table). -/
def stringsToLower (s : String) : String := String.mk (s.data.map charToLower)

/-- Model of Go `strings.ToUpper` (ASCII case table). -/
def stringsToUpper (s : String) : String := String.mk (s.data.map charToUpper)

/-- The six ASCII white-space characters recognized by Go `unicode.IsSpace`. -/
def isSpaceChar (c : Char) : Bool :=
  c = ' ' || c = '\t' || c = '\n' || c = '\x0b' || c = '\x0c' || c = '\r'

/-- Model of Go `strings.TrimSpace`: drop white space from both ends. -/
def stringsTrimSpace (s : String) : String :=
  String.mk (((s.data.dropWhile isSpaceChar).reverse.dropWhile isSpaceChar).reverse)

/-- Helper for substring search: does `needle` occur in the haystack list? -/
def containsAux (needle : List Char) : List Char → Bool
  | [] => needle.isEmpty
  | c :: rest => needle.isPrefixOf (c :: rest) || containsAux needle rest

/-- Model of Go `strings.Contains s sub`. -/
def stringsContains (s sub : String) : Bool := containsAux sub.data s.data

/-- Model of Go `strings.HasSuffix`. -/
def stringsHasSuffix (s suffix : String) : Bool := List.isSuffixOf suffix.data s.data

/-- Go `len` on a string, modelled as character count (all sliced text is ASCII). -/
def strLen (s : String) : Nat := s.data.length

/-- Go string slicing `s[:n]`, modelled as character take (ASCII payloads). -/
def strTake (s : String) (n : Nat) : String := String.mk (s.data.take n)

/-! ## Data model (`statusRollupEntry`, `prView`) -/

/-- One CI signal from the GitHub status rollup, mirroring the Go struct
`statusRollupEntry` (a mixed array of CheckRun and StatusContext records). -/
structure statusRollupEntry where
  typename : String
  name : String
  context : String
  status : String
  conclusion : String
  state : String
deriving Repr, DecidableEq

/-- The fields of the Go `prView` struct used by the decision logic. -/
structure prView where
  id : String
  url : String
  title : String
  body : String
  isDraft : Bool
  mergeable : String
  reviewDecision : String
  mergeStateStatus : String
  statusCheckRollup : List statusRollupEntry
deriving Repr, DecidableEq

/-! ## `overallChecksState` -/

/-- Per-entry outcome of the loop body of `overallChecksState`: the entry is
either fine, marks the aggregate pending, or makes the whole rollup fail. -/
inductive EntryEval where
  | ok : EntryEval
  | pending : EntryEval
  | failing : EntryEval
deriving Repr, DecidableEq

/-- The loop body of `overallChecksState`, entry by entry: CheckRun entries
with a non-COMPLETED status or empty conclusion are pending, conclusions
other than SUCCESS/NEUTRAL/SKIPPED fail; StatusContext entries with state
FAILURE/ERROR fail, SUCCESS passes, anything else is pending; unknown
typenames are ignored. -/
def evalEntry (e : statusRollupEntry) : EntryEval :=
  let typeName := stringsTrimSpace e.typename
  if typeName = "CheckRun" then
    let status := stringsToUpper (stringsTrimSpace e.status)
    let conclusion := stringsToUpper (stringsTrimSpace e.conclusion)
    if status ≠ "" ∧ status ≠ "COMPLETED" then .pending
    else if conclusion = "" then .pending
    else if conclusion = "SUCCESS" ∨ conclusion = "NEUTRAL" ∨ conclusion = "SKIPPED" then .ok
    else .failing
  else if typeName = "StatusContext" then
    let state := stringsToUpper (stringsTrimSpace e.state)
    if state = "" then .pending
    else if state = "SUCCESS" then .ok
    else if state = "PENDING" then .pending
    else if state = "FAILURE" ∨ state = "ERROR" then .failing
    else .pending
  else .ok

/-- The fold of `overallChecksState` over the entries, carrying the
`pending` flag; returns FAILURE at the first failing entry. -/
def ocsLoop : List statusRollupEntry → Bool → String
  | [], pending => if pending then "PENDING" else "SUCCESS"
  | e :: rest, pending =>
    match evalEntry e with
    | .failing => "FAILURE"
    | .pending => ocsLoop rest true
    | .ok => ocsLoop rest pending

/-- Model of Go `overallChecksState`: empty rollup reports the empty string;
otherwise failure dominates pending dominates success. -/
def overallChecksState (entries : List statusRollupEntry) : String :=
  if entries = [] then "" else ocsLoop entries false

/-! ## `classifyCIFailure` -/

/-- The name-keyword heuristic applied to one FAILURE entry: the category
(`lint`, `test` or `build`) this entry contributes, if any, mirroring the
if/else-if chain in the Go source (lint keywords screened first). -/
def entryCategory (e : statusRollupEntry) : Option String :=
  let conclusion := stringsToUpper (stringsTrimSpace e.conclusion)
  if conclusion = "FAILURE" then
    let nameLower := stringsToLower (stringsTrimSpace e.name)
    if stringsContains nameLower "lint" || stringsContains nameLower "golangci" ||
        stringsContains nameLower "eslint" || stringsContains nameLower "prettier" then
      some "lint"
    else if stringsContains nameLower "test" || stringsContains nameLower "spec" ||
        stringsContains nameLower "jest" || stringsContains nameLower "pytest" then
      some "test"
    else if stringsContains nameLower "build" || stringsContains nameLower "compile" ||
        stringsContains nameLower "typecheck" || stringsContains nameLower "tsc" then
      some "build"
    else none
  else none

/-- The category set built by `classifyCIFailure`; the Go `map[string]bool`
can only ever hold the keys lint/test/build, so it is represented by three
membership flags. -/
structure CatSet where
  lint : Bool
  test : Bool
  build : Bool
deriving Repr, DecidableEq

/-- Insert one entry's category (if any) into the category set. -/
def addCat (s : CatSet) (c : Option String) : CatSet :=
  if c = some "lint" then { s with lint := true }
  else if c = some "test" then { s with test := true }
  else if c = some "build" then { s with build := true }
  else s

/-- Cardinality of the category set (`len(categories)` in the source). -/
def catCount (s : CatSet) : Nat :=
  (if s.lint then 1 else 0) + (if s.test then 1 else 0) + (if s.build then 1 else 0)

/-- Model of Go `classifyCIFailure`: gather categories over FAILURE entries,
then `unknown` for none, `mixed` for several, the single category otherwise. -/
def classifyCIFailure (entries : List statusRollupEntry) : String :=
  let categories := entries.foldl (fun acc e => addCat acc (entryCategory e)) ⟨false, false, false⟩
  if catCount categories = 0 then "unknown"
  else if catCount categories > 1 then "mixed"
  else if categories.lint then "lint"
  else if categories.test then "test"
  else "build"

/-! ## `mergeAllowed` -/

/-- Model of Go `mergeAllowed`: the merge-readiness evaluator with its fixed
gate precedence (mergeable state, then rollup non-empty, then rollup SUCCESS,
then review decision). -/
def mergeAllowed (pr : prView) : Bool × String :=
  let mergeable := stringsToUpper (stringsTrimSpace pr.mergeable)
  if mergeable ≠ "MERGEABLE" then
    (false, "mergeable_" ++ stringsToLower mergeable)
  else
    let state := stringsToUpper (stringsTrimSpace (overallChecksState pr.statusCheckRollup))
    if state = "" then
      (false, "checks_unknown")
    else if state ≠ "SUCCESS" then
      (false, "checks_" ++ stringsToLower state)
    else
      let decision := stringsToUpper (stringsTrimSpace pr.reviewDecision)
      if decision = "CHANGES_REQUESTED" then
        (false, "review_changes_requested")
      else if decision = "REVIEW_REQUIRED" then
        (false, "review_required")
      else
        (true, "")

/-! ## Circuit breaker -/

/-- Model of the Go `CircuitBreaker` struct: the two `map[string]int` maps
(zero default) become total functions, the mutex is irrelevant for the
sequential semantics. -/
structure CircuitBreaker where
  failures : String → Int
  skipsRemaining : String → Int
  failureThreshold : Int
  skipRuns : Int

/-- Point update of a zero-default map; Go `delete` is `updateMap m k 0`. -/
def updateMap (m : String → Int) (k : String) (v : Int) : String → Int :=
  fun u => if u = k then v else m u

/-- Model of Go `NewCircuitBreaker`: empty maps, given thresholds. -/
def NewCircuitBreaker (failureThreshold skipRuns : Int) : CircuitBreaker :=
  ⟨fun _ => 0, fun _ => 0, failureThreshold, skipRuns⟩

/-- Model of Go `CircuitBreaker.RecordFailure`: increment the failure count;
when it reaches the threshold and the circuit is not already open, arm the
skip budget (never re-arm while open). -/
def CircuitBreaker.RecordFailure (cb : CircuitBreaker) (prURL : String) : CircuitBreaker :=
  let f := cb.failures prURL + 1
  let cb1 := { cb with failures := updateMap cb.failures prURL f }
  if f ≥ cb1.failureThreshold ∧ cb1.skipsRemaining prURL = 0 then
    { cb1 with skipsRemaining := updateMap cb1.skipsRemaining prURL cb1.skipRuns }
  else cb1

/-- Model of Go `CircuitBreaker.RecordSuccess`: clear the failure count and
any remaining skip budget (both guarded deletes in the source). -/
def CircuitBreaker.RecordSuccess (cb : CircuitBreaker) (prURL : String) : CircuitBreaker :=
  let cb1 :=
    if cb.failures prURL > 0 then { cb with failures := updateMap cb.failures prURL 0 }
    else cb
  if cb1.skipsRemaining prURL > 0 then
    { cb1 with skipsRemaining := updateMap cb1.skipsRemaining prURL 0 }
  else cb1

/-- Model of Go `CircuitBreaker.IsOpen`: a positive skip budget is consumed
by one unit and reports open; when the decrement reaches zero the failure
count is cleared pre-emptively; otherwise reports closed, state untouched. -/
def CircuitBreaker.IsOpen (cb : CircuitBreaker) (prURL : String) : CircuitBreaker × Bool :=
  let remaining := cb.skipsRemaining prURL
  if remaining > 0 then
    let cb1 := { cb with skipsRemaining := updateMap cb.skipsRemaining prURL (remaining - 1) }
    let cb2 :=
      if remaining - 1 = 0 then { cb1 with failures := updateMap cb1.failures prURL 0 }
      else cb1
    (cb2, true)
  else (cb, false)

/-- `n` consecutive `RecordFailure` calls for one subject. -/
def recordFailureN (cb : CircuitBreaker) (prURL : String) : Nat → CircuitBreaker
  | 0 => cb
  | n + 1 => (recordFailureN cb prURL n).RecordFailure prURL

/-- The breaker state after `n` consecutive `IsOpen` calls for one subject. -/
def isOpenIter (cb : CircuitBreaker) (prURL : String) : Nat → CircuitBreaker
  | 0 => cb
  | n + 1 => ((isOpenIter cb prURL n).IsOpen prURL).1

/-! ## Error classifier (`classifyError`) -/

/-- The Go `ErrorKind` enumeration (`Unknown`, `Transient`, `Permanent`). -/
inductive ErrorKind where
  | Unknown : ErrorKind
  | Transient : ErrorKind
  | Permanent : ErrorKind
deriving Repr, DecidableEq

/-- The fixed permanent-indicator list from `classifyError`, in source order. -/
def permanentIndicators : List String :=
  ["not found", "404", " archived ", "is archived", "permission denied", "403",
   "unauthorized", "already merged", "merge conflict", "closed pull request",
   "ref not found", "no such file or directory", "command not found",
   "could not read username", "bad credentials", "invalid credentials",
   "resource not found"]

/-- The fixed transient-indicator list from `classifyError`, in source order. -/
def transientIndicators : List String :=
  ["rate limit", "timeout", "temporary failure", "server error", "500", "502",
   "503", "504", "connection refused", "connection reset", "network",
   "i/o timeout", "no route to host", "certificate", "tls", "temporary"]

/-- Model of Go `classifyError`: `nil` errors (here `none`) are `Unknown`;
otherwise the lowercased message is screened against the permanent list
first, the transient list second, and defaults to `Transient`. -/
def classifyError : Option String → ErrorKind
  | none => .Unknown
  | some errMsg =>
    let msg := stringsToLower errMsg
    if permanentIndicators.any (fun indicator => stringsContains msg indicator) then .Permanent
    else if transientIndicators.any (fun indicator => stringsContains msg indicator) then .Transient
    else .Transient

/-! ## Retry policy -/

/-- The Go `RetryConfig` struct (delays in milliseconds). -/
structure RetryConfig where
  maxAttempts : Nat
  baseDelay : Int
  maxDelay : Int
deriving Repr, DecidableEq

/-- The Go `defaultRetryConfig`: 3 attempts, 500 ms base, 5000 ms cap. -/
def defaultRetryConfig : RetryConfig := ⟨3, 500, 5000⟩

/-- The delay value computed in the body of `Retryable`:
`BaseDelay * (1 << (attempt-1))`, clamped to `MaxDelay` when larger. -/
def retryDelay (cfg : RetryConfig) (attempt : Nat) : Int :=
  let delay := cfg.baseDelay * 2 ^ (attempt - 1)
  if delay > cfg.maxDelay then cfg.maxDelay else delay

/-- The loop of Go `Retryable`.  The successive invocations of the stateful
closure `fn` are modelled by an oracle indexed by the 1-based attempt number:
`fn k` is the error (or `none` for success) of the `k`-th invocation.
Returns the final error together with the number of invocations made. -/
def retryLoopE (fn : Nat → Option String) :
    Nat → Nat → Option String → Option String × Nat
  | _, 0, lastErr => (lastErr, 0)
  | attempt, remaining + 1, _ =>
    match fn attempt with
    | none => (none, 1)
    | some e =>
      if classifyError (some e) = .Permanent then (some e, 1)
      else
        let next := retryLoopE fn (attempt + 1) remaining (some e)
        (next.1, next.2 + 1)

/-- Model of Go `Retryable` (result value): the error it returns. -/
def Retryable (fn : Nat → Option String) (cfg : RetryConfig) : Option String :=
  (retryLoopE fn 1 cfg.maxAttempts none).1

/-- The number of times `Retryable` invokes its operation. -/
def retryCallsE (fn : Nat → Option String) (cfg : RetryConfig) : Nat :=
  (retryLoopE fn 1 cfg.maxAttempts none).2

/-- The loop of Go `RetryableWithResult` (and of `ClassifyAndRetry`, which is
the same loop at the default config): the `k`-th invocation yields
`fn k = (value, error)`.  Returns `(result, error)` plus invocation count;
on exhaustion the Go code returns the zero value and the last error. -/
def retryLoopR {T : Type} [Inhabited T] (fn : Nat → T × Option String) :
    Nat → Nat → Option String → (T × Option String) × Nat
  | _, 0, lastErr => ((default, lastErr), 0)
  | attempt, remaining + 1, _ =>
    let r := fn attempt
    match r.2 with
    | none => ((r.1, none), 1)
    | some e =>
      if classifyError (some e) = .Permanent then ((default, some e), 1)
      else
        let next := retryLoopR fn (attempt + 1) remaining (some e)
        (next.1, next.2 + 1)

/-- Model of Go `RetryableWithResult`: the `(result, error)` pair it returns. -/
def RetryableWithResult {T : Type} [Inhabited T] (fn : Nat → T × Option String)
    (cfg : RetryConfig) : T × Option String :=
  (retryLoopR fn 1 cfg.maxAttempts none).1

/-- The number of times `RetryableWithResult` invokes its operation. -/
def retryCallsR {T : Type} [Inhabited T] (fn : Nat → T × Option String)
    (cfg : RetryConfig) : Nat :=
  (retryLoopR fn 1 cfg.maxAttempts none).2

/-- The sequence of backoff delays `Retryable` computes (lines guarded by
`attempt < config.MaxAttempts` after a non-permanent failure).  In the source
these values are bound and then discarded (`_ = delay`); no sleep happens. -/
def retryDelaysLoop (fn : Nat → Option String) (cfg : RetryConfig) :
    Nat → Nat → List Int
  | _, 0 => []
  | attempt, remaining + 1 =>
    match fn attempt with
    | none => []
    | some e =>
      if classifyError (some e) = .Permanent then []
      else if remaining > 0 then
        retryDelay cfg attempt :: retryDelaysLoop fn cfg (attempt + 1) remaining
      else []

/-- All delays computed (and discarded) during one `Retryable` run. -/
def retryComputedDelays (fn : Nat → Option String) (cfg : RetryConfig) : List Int :=
  retryDelaysLoop fn cfg 1 cfg.maxAttempts

/-! ## Run outcomes and Discord rendering -/

/-- The Go `prOutcome` struct: the record of processing one PR in one run. -/
structure prOutcome where
  url : String
  repo : String
  number : Int
  author : String
  action : String
  reason : String
  mergeCommitOID : String
  checksState : String
  mergeable : String
  reviewDecision : String
  reviewComments : String
  ciFailureType : String
deriving Repr, DecidableEq

/-- The fields of the Go `runOutput` struct used by the renderers. -/
structure runOutput where
  ok : Bool
  startedAt : String
  org : String
  maxPRs : Int
  staleHours : Int
  dryRun : Bool
  results : List prOutcome
deriving Repr, DecidableEq

/-- Model of Go `strings.Join elems sep`. -/
def stringsJoin (elems : List String) (sep : String) : String :=
  match elems with
  | [] => ""
  | x :: xs => xs.foldl (fun acc e => acc ++ sep ++ e) x

/-- Go `%t` formatting of a boolean. -/
def boolToString (b : Bool) : String := if b then "true" else "false"

/-- The per-PR line of the run summary (`"- action url (reason) commit:oid"`). -/
def summaryLine (r : prOutcome) : String :=
  let suffix0 := if r.reason ≠ "" then " (" ++ r.reason ++ ")" else ""
  let suffix :=
    if r.action = "merged" ∧ r.mergeCommitOID ≠ "" then suffix0 ++ " commit:" ++ r.mergeCommitOID
    else suffix0
  "- " ++ r.action ++ " " ++ r.url ++ suffix

/-- The run-summary text before the length check, as assembled by
`renderDiscordSummary` up to `strings.Join(lines, "\n")`. -/
def rawDiscordSummary (out : runOutput) (merged commented skipped errs : Int) : String :=
  let header :=
    ["Kaylee PR pipeline run",
     "- startedAt: `" ++ out.startedAt ++ "`",
     "- org: `" ++ out.org ++ "` | maxPRs: `" ++ toString out.maxPRs ++
       "` | staleHours(phaedrus-only): `" ++ toString out.staleHours ++
       "` | dryRun: `" ++ boolToString out.dryRun ++ "`",
     "- results: merged=`" ++ toString merged ++ "` commented=`" ++ toString commented ++
       "` skipped=`" ++ toString skipped ++ "` errors=`" ++ toString errs ++ "`"]
  if out.results = [] then
    stringsJoin (header ++ ["", "No PRs selected."]) "\n"
  else
    stringsJoin (header ++ ["", "Per PR:"] ++ out.results.map summaryLine) "\n"

/-- Model of Go `renderDiscordSummary`: the assembled summary, cut to its
first 1890 characters plus a trailing `"\n(truncated)"` marker when the raw
text exceeds 1900 characters (Discord's hard limit is 2000). -/
def renderDiscordSummary (out : runOutput) (merged commented skipped errs : Int) : String :=
  let msg := rawDiscordSummary out merged commented skipped errs
  if strLen msg ≤ 1900 then msg else strTake msg 1890 ++ "\n(truncated)"

/-- The error-alert text before the length check, as assembled by
`renderDiscordAlert` (one line per `error` outcome). -/
def rawDiscordAlert (out : runOutput) (errs : Int) : String :=
  let header :=
    ["Kaylee PR pipeline: errors detected",
     "- startedAt: `" ++ out.startedAt ++ "`",
     "- errors: `" ++ toString errs ++ "`",
     "",
     "Error PRs:"]
  let errLines :=
    (out.results.filter (fun r => r.action = "error")).map (fun r =>
      "- " ++ r.url ++ " (" ++ (if r.reason = "" then "unknown" else r.reason) ++ ")")
  stringsJoin (header ++ errLines) "\n"

/-- Model of Go `renderDiscordAlert`, with the same truncation step as the
summary renderer. -/
def renderDiscordAlert (out : runOutput) (errs : Int) : String :=
  let msg := rawDiscordAlert out errs
  if strLen msg ≤ 1900 then msg else strTake msg 1890 ++ "\n(truncated)"

/-- The lint side-channel alert assembled inline in `main` and handed
directly to `discordSendMessage` (no truncation step in the source). -/
def lintAlertMessage (url repo : String) (number : Int) : String :=
  "🧹 Lint failure on PR " ++ url ++ " (" ++ repo ++ "#" ++ toString number ++
    "). Dispatch lint-fix agent."

/-- The changes-requested side-channel alert assembled inline in `main`,
embedding the full review-comment text, and handed directly to
`discordSendMessage` (no truncation step in the source). -/
def reviewAlertMessage (url comments : String) : String :=
  "🔧 PR " ++ url ++ " has changes requested. Review comments:\n" ++ comments ++
    "\nAction needed: address review feedback."

/-- The message content `discordSendMessage` actually transmits: the function
marshals `{Content: content}` verbatim into the request body and applies no
truncation or other rewriting of the text it is given. -/
def discordMessageContent (content : String) : String := content

/-! ## Notification dedup gate (not present under `src/`) -/

/-- The persisted dedup record (spec: `{hash, lastPostedAt}`); the RFC3339
timestamp is modelled as seconds on an integer clock. -/
structure runState where
  hash : String
  lastPostedAt : Int
deriving Repr, DecidableEq

/-- The dedup re-announce window: 2 hours, in seconds. -/
def dedupWindowSeconds : Int := 7200

/-- Modelled from the spec: the dedup gate `shouldPostToDiscord` itself is
missing from `src/` (only its tests appear, in the README bundle), so this
definition follows §4.6 of the spec word for word.  A missing or corrupt
state file is `none` ("no prior state", never fatal).  Rules in order: no
prior state posts; the empty-hash sentinel posts; a changed hash posts; the
same hash inside the 2-hour window suppresses with a human-readable reason;
the same hash after the window posts again. -/
def shouldPostToDiscord (prior : Option runState) (currentHash : String) (now : Int) :
    Bool × String :=
  match prior with
  | none => (true, "")
  | some st =>
    if currentHash = "" then (true, "")
    else if currentHash ≠ st.hash then (true, "")
    else if now - st.lastPostedAt < dedupWindowSeconds then
      (false, "identical report already posted within the last 2 hours")
    else (true, "")

/-! ## Helper lemmas -/

theorem ocsLoop_failing (entries : List statusRollupEntry) :
    ∀ p : Bool, (∃ e ∈ entries, evalEntry e = .failing) → ocsLoop entries p = "FAILURE" := by
  induction entries with
  | nil => intro p h; rcases h with ⟨e, he, _⟩; cases he
  | cons e rest ih =>
    intro p h
    rcases h with ⟨x, hx, hfx⟩
    rcases List.mem_cons.mp hx with rfl | hx'
    · simp only [ocsLoop, hfx]
    · cases hev : evalEntry e <;> simp only [ocsLoop, hev]
      · exact ih p ⟨x, hx', hfx⟩
      · exact ih true ⟨x, hx', hfx⟩

theorem ocsLoop_no_failing (entries : List statusRollupEntry) :
    ∀ p : Bool, (∀ e ∈ entries, evalEntry e ≠ .failing) →
      ocsLoop entries p =
        if p = true ∨ ∃ e ∈ entries, evalEntry e = .pending then "PENDING" else "SUCCESS" := by
  induction entries with
  | nil =>
    intro p _
    cases p <;> simp [ocsLoop]
  | cons e rest ih =>
    intro p h
    have hne : evalEntry e ≠ .failing := h e (List.mem_cons_self e rest)
    have hrest : ∀ x ∈ rest, evalEntry x ≠ .failing := fun x hx => h x (List.mem_cons_of_mem e hx)
    cases hev : evalEntry e
    · rw [ocsLoop, hev, ih p hrest]
      by_cases hp : p = true ∨ ∃ x ∈ rest, evalEntry x = .pending
      · rw [if_pos hp, if_pos]
        rcases hp with hp | ⟨x, hx, hpx⟩
        · exact Or.inl hp
        · exact Or.inr ⟨x, List.mem_cons_of_mem e hx, hpx⟩
      · rw [if_neg hp, if_neg]
        rintro (hc | ⟨x, hx, hpx⟩)
        · exact hp (Or.inl hc)
        · rcases List.mem_cons.mp hx with rfl | hx'
          · rw [hev] at hpx; cases hpx
          · exact hp (Or.inr ⟨x, hx', hpx⟩)
    · rw [ocsLoop, hev, ih true hrest]
      rw [if_pos (Or.inl rfl), if_pos]
      exact Or.inr ⟨e, List.mem_cons_self e rest, hev⟩
    · exact absurd hev hne

theorem addCat_lint (s : CatSet) (c : Option String) :
    (addCat s c).lint = (s.lint || (c == some "lint")) := by
  simp only [addCat]
  split_ifs with h1 h2 h3 <;> subst_eqs <;> simp_all

theorem addCat_test (s : CatSet) (c : Option String) :
    (addCat s c).test = (s.test || (c == some "test")) := by
  simp only [addCat]
  split_ifs with h1 h2 h3 <;> subst_eqs <;> simp_all

theorem addCat_build (s : CatSet) (c : Option String) :
    (addCat s c).build = (s.build || (c == some "build")) := by
  simp only [addCat]
  split_ifs with h1 h2 h3 <;> subst_eqs <;> simp_all

theorem catFold_lint (entries : List statusRollupEntry) :
    ∀ s : CatSet,
      (entries.foldl (fun acc e => addCat acc (entryCategory e)) s).lint =
        (s.lint || entries.any (fun e => entryCategory e == some "lint")) := by
  induction entries with
  | nil => intro s; simp
  | cons e rest ih =>
    intro s
    simp only [List.foldl_cons, List.any_cons, ih, addCat_lint, Bool.or_assoc]

theorem catFold_test (entries : List statusRollupEntry) :
    ∀ s : CatSet,
      (entries.foldl (fun acc e => addCat acc (entryCategory e)) s).test =
        (s.test || entries.any (fun e => entryCategory e == some "test")) := by
  induction entries with
  | nil => intro s; simp
  | cons e rest ih =>
    intro s
    simp only [List.foldl_cons, List.any_cons, ih, addCat_test, Bool.or_assoc]

theorem catFold_build (entries : List statusRollupEntry) :
    ∀ s : CatSet,
      (entries.foldl (fun acc e => addCat acc (entryCategory e)) s).build =
        (s.build || entries.any (fun e => entryCategory e == some "build")) := by
  induction entries with
  | nil => intro s; simp
  | cons e rest ih =>
    intro s
    simp only [List.foldl_cons, List.any_cons, ih, addCat_build, Bool.or_assoc]

theorem entryCategory_range (e : statusRollupEntry) :
    entryCategory e = none ∨ entryCategory e = some "lint" ∨
      entryCategory e = some "test" ∨ entryCategory e = some "build" := by
  simp only [entryCategory]
  split_ifs <;> simp

theorem classify_by_any (entries : List statusRollupEntry) :
    classifyCIFailure entries =
      (fun (l t b : Bool) =>
        if catCount ⟨l, t, b⟩ = 0 then "unknown"
        else if catCount ⟨l, t, b⟩ > 1 then "mixed"
        else if l then "lint" else if t then "test" else "build")
      (entries.any (fun e => entryCategory e == some "lint"))
      (entries.any (fun e => entryCategory e == some "test"))
      (entries.any (fun e => entryCategory e == some "build")) := by
  simp only [classifyCIFailure, catCount, catFold_lint, catFold_test, catFold_build,
    Bool.false_or]

/-! ## Claim theorems -/

/-- C1: `mergeAllowed` is a pure function with fixed gate precedence: a
non-MERGEABLE state yields `"mergeable_" ++ lowercase(state)` (in particular a
CONFLICTING snapshot yields `"mergeable_conflicting"` whatever its checks
are), then an empty aggregate checks state yields `"checks_unknown"`, then a
non-SUCCESS aggregate yields `"checks_" ++ lowercase(state)`, then
CHANGES_REQUESTED yields `"review_changes_requested"` and REVIEW_REQUIRED
yields `"review_required"`; with every gate passing (APPROVED or empty review
decision) it returns `(true, "")`. -/
theorem C1_mergeAllowed_gates :
    (∀ pr : prView, stringsToUpper (stringsTrimSpace pr.mergeable) ≠ "MERGEABLE" →
      mergeAllowed pr =
        (false, "mergeable_" ++ stringsToLower (stringsToUpper (stringsTrimSpace pr.mergeable)))) ∧
    (∀ pr : prView, stringsToUpper (stringsTrimSpace pr.mergeable) = "CONFLICTING" →
      mergeAllowed pr = (false, "mergeable_conflicting")) ∧
    (∀ pr : prView, stringsToUpper (stringsTrimSpace pr.mergeable) = "MERGEABLE" →
      overallChecksState pr.statusCheckRollup = "" →
      mergeAllowed pr = (false, "checks_unknown")) ∧
    (∀ pr : prView, stringsToUpper (stringsTrimSpace pr.mergeable) = "MERGEABLE" →
      overallChecksState pr.statusCheckRollup = "PENDING" →
      mergeAllowed pr = (false, "checks_pending")) ∧
    (∀ pr : prView, stringsToUpper (stringsTrimSpace pr.mergeable) = "MERGEABLE" →
      overallChecksState pr.statusCheckRollup = "FAILURE" →
      mergeAllowed pr = (false, "checks_failure")) ∧
    (∀ pr : prView, stringsToUpper (stringsTrimSpace pr.mergeable) = "MERGEABLE" →
      overallChecksState pr.statusCheckRollup = "SUCCESS" →
      stringsToUpper (stringsTrimSpace pr.reviewDecision) = "CHANGES_REQUESTED" →
      mergeAllowed pr = (false, "review_changes_requested")) ∧
    (∀ pr : prView, stringsToUpper (stringsTrimSpace pr.mergeable) = "MERGEABLE" →
      overallChecksState pr.statusCheckRollup = "SUCCESS" →
      stringsToUpper (stringsTrimSpace pr.reviewDecision) = "REVIEW_REQUIRED" →
      mergeAllowed pr = (false, "review_required")) ∧
    (∀ pr : prView, stringsToUpper (stringsTrimSpace pr.mergeable) = "MERGEABLE" →
      overallChecksState pr.statusCheckRollup = "SUCCESS" →
      (stringsToUpper (stringsTrimSpace pr.reviewDecision) = "APPROVED" ∨
        stringsToUpper (stringsTrimSpace pr.reviewDecision) = "") →
      mergeAllowed pr = (true, "")) := by
  refine ⟨?_, ?_, ?_, ?_, ?_, ?_, ?_, ?_⟩
  · intro pr h
    simp only [mergeAllowed, if_pos h]
  · intro pr h
    simp only [mergeAllowed, h]
    rw [if_pos (by decide)]
    decide
  · intro pr h1 h2
    simp only [mergeAllowed, h1, h2]
    rw [if_neg (by decide), if_pos (by decide)]
  · intro pr h1 h2
    simp only [mergeAllowed, h1, h2]
    rw [if_neg (by decide), if_neg (by decide), if_pos (by decide)]
    decide
  · intro pr h1 h2
    simp only [mergeAllowed, h1, h2]
    rw [if_neg (by decide), if_neg (by decide), if_pos (by decide)]
    decide
  · intro pr h1 h2 h3
    simp only [mergeAllowed, h1, h2, h3]
    rw [if_neg (by decide), if_neg (by decide), if_neg (by decide), if_pos (by decide)]
  · intro pr h1 h2 h3
    simp only [mergeAllowed, h1, h2, h3]
    rw [if_neg (by decide), if_neg (by decide), if_neg (by decide), if_neg (by decide),
      if_pos (by decide)]
  · intro pr h1 h2 h3
    rcases h3 with h3 | h3 <;> simp only [mergeAllowed, h1, h2, h3] <;>
      rw [if_neg (by decide), if_neg (by decide), if_neg (by decide), if_neg (by decide),
        if_neg (by decide)]

/-- C1 witness: the gate theorem applied to a CONFLICTING snapshot with a
failing check and to an all-green APPROVED snapshot. -/
theorem C1_mergeAllowed_gates_witness :
    mergeAllowed ⟨"id1", "u1", "t", "b", false, "CONFLICTING", "", "",
      [⟨"CheckRun", "ci", "", "COMPLETED", "FAILURE", ""⟩]⟩ =
      (false, "mergeable_conflicting") ∧
    mergeAllowed ⟨"id2", "u2", "t", "b", false, "MERGEABLE", "APPROVED", "",
      [⟨"CheckRun", "ci", "", "COMPLETED", "SUCCESS", ""⟩]⟩ = (true, "") :=
  ⟨C1_mergeAllowed_gates.2.1 _ (by decide),
   C1_mergeAllowed_gates.2.2.2.2.2.2.2 _ (by decide) (by decide) (Or.inl (by decide))⟩

/-- C3: `overallChecksState` applies the precedence failure over pending over
success: the empty rollup yields `""`; any entry the loop classifies as
failing forces `"FAILURE"` whatever else is present (in particular one
FAILURE among nine SUCCESS entries); with no failing entry, any pending
entry forces `"PENDING"`; with neither, a non-empty rollup is `"SUCCESS"`. -/
theorem C3_overallChecksState_precedence :
    overallChecksState [] = "" ∧
    (∀ entries : List statusRollupEntry, (∃ e ∈ entries, evalEntry e = .failing) →
      overallChecksState entries = "FAILURE") ∧
    (∀ entries : List statusRollupEntry, entries ≠ [] →
      (∀ e ∈ entries, evalEntry e ≠ .failing) → (∃ e ∈ entries, evalEntry e = .pending) →
      overallChecksState entries = "PENDING") ∧
    (∀ entries : List statusRollupEntry, entries ≠ [] →
      (∀ e ∈ entries, evalEntry e ≠ .failing) → (∀ e ∈ entries, evalEntry e ≠ .pending) →
      overallChecksState entries = "SUCCESS") ∧
    overallChecksState
        (⟨"CheckRun", "broken", "", "COMPLETED", "FAILURE", ""⟩ ::
          List.replicate 9 ⟨"CheckRun", "fine", "", "COMPLETED", "SUCCESS", ""⟩) =
      "FAILURE" := by
  refine ⟨rfl, ?_, ?_, ?_, by decide⟩
  · intro entries h
    have hne : entries ≠ [] := by
      rintro rfl
      rcases h with ⟨e, he, _⟩
      cases he
    rw [overallChecksState, if_neg hne]
    exact ocsLoop_failing entries false h
  · intro entries hne hnf hex
    rw [overallChecksState, if_neg hne, ocsLoop_no_failing entries false hnf, if_pos]
    exact Or.inr hex
  · intro entries hne hnf hnp
    rw [overallChecksState, if_neg hne, ocsLoop_no_failing entries false hnf, if_neg]
    rintro (hc | ⟨e, he, hp⟩)
    · cases hc
    · exact hnp e he hp

/-- C3 witness: failure dominance applied to a rollup where a failing
StatusContext sits next to a still-running CheckRun. -/
theorem C3_overallChecksState_precedence_witness :
    overallChecksState [⟨"StatusContext", "", "ctx", "", "", "FAILURE"⟩,
      ⟨"CheckRun", "ci", "", "IN_PROGRESS", "", ""⟩] = "FAILURE" :=
  C3_overallChecksState_precedence.2.1 _ (by decide)

/-- C8: `classifyCIFailure` collects the category set matched by
case-insensitive name keywords among FAILURE-conclusion entries only: an
empty set yields `"unknown"`, a single category yields that category, two
distinct categories yield `"mixed"`; an entry contributing no category (a
keyword-free name, or any non-FAILURE conclusion such as SKIPPED or NEUTRAL)
leaves the result unchanged. -/
theorem C8_classifyCIFailure_categories :
    (∀ entries : List statusRollupEntry, (∀ e ∈ entries, entryCategory e = none) →
      classifyCIFailure entries = "unknown") ∧
    (∀ (entries : List statusRollupEntry) (c : String),
      (∃ e ∈ entries, entryCategory e = some c) →
      (∀ e ∈ entries, entryCategory e = none ∨ entryCategory e = some c) →
      classifyCIFailure entries = c) ∧
    (∀ (entries : List statusRollupEntry) (c₁ c₂ : String), c₁ ≠ c₂ →
      (∃ e ∈ entries, entryCategory e = some c₁) →
      (∃ e ∈ entries, entryCategory e = some c₂) →
      classifyCIFailure entries = "mixed") ∧
    (∀ (e : statusRollupEntry) (entries : List statusRollupEntry), entryCategory e = none →
      classifyCIFailure (e :: entries) = classifyCIFailure entries) ∧
    (∀ e : statusRollupEntry, stringsToUpper (stringsTrimSpace e.conclusion) ≠ "FAILURE" →
      entryCategory e = none) ∧
    classifyCIFailure [⟨"CheckRun", "golangci-lint", "", "", "FAILURE", ""⟩] = "lint" ∧
    classifyCIFailure [⟨"CheckRun", "lint check", "", "", "FAILURE", ""⟩,
      ⟨"CheckRun", "pytest", "", "", "FAILURE", ""⟩] = "mixed" := by
  have hrange3 : ∀ (e : statusRollupEntry) (c : String), entryCategory e = some c →
      c = "lint" ∨ c = "test" ∨ c = "build" := by
    intro e c hc
    rcases entryCategory_range e with h | h | h | h <;> rw [hc] at h
    · cases h
    · exact Or.inl (Option.some.inj h)
    · exact Or.inr (Or.inl (Option.some.inj h))
    · exact Or.inr (Or.inr (Option.some.inj h))
  refine ⟨?_, ?_, ?_, ?_, ?_, by decide, by decide⟩
  · intro entries h
    rw [classify_by_any]
    have hl : entries.any (fun e => entryCategory e == some "lint") = false := by
      simp only [List.any_eq_false]
      intro e he
      simp [h e he]
    have ht : entries.any (fun e => entryCategory e == some "test") = false := by
      simp only [List.any_eq_false]
      intro e he
      simp [h e he]
    have hb : entries.any (fun e => entryCategory e == some "build") = false := by
      simp only [List.any_eq_false]
      intro e he
      simp [h e he]
    rw [hl, ht, hb]
    decide
  · intro entries c hex hall
    obtain ⟨e₀, he₀, hc₀⟩ := hex
    rw [classify_by_any]
    rcases hrange3 e₀ c hc₀ with rfl | rfl | rfl
    · have hl : entries.any (fun e => entryCategory e == some "lint") = true :=
        List.any_eq_true.mpr ⟨e₀, he₀, by simp [hc₀]⟩
      have ht : entries.any (fun e => entryCategory e == some "test") = false := by
        simp only [List.any_eq_false]
        intro e he
        rcases hall e he with h | h <;> simp [h]
      have hb : entries.any (fun e => entryCategory e == some "build") = false := by
        simp only [List.any_eq_false]
        intro e he
        rcases hall e he with h | h <;> simp [h]
      rw [hl, ht, hb]
      decide
    · have hl : entries.any (fun e => entryCategory e == some "lint") = false := by
        simp only [List.any_eq_false]
        intro e he
        rcases hall e he with h | h <;> simp [h]
      have ht : entries.any (fun e => entryCategory e == some "test") = true :=
        List.any_eq_true.mpr ⟨e₀, he₀, by simp [hc₀]⟩
      have hb : entries.any (fun e => entryCategory e == some "build") = false := by
        simp only [List.any_eq_false]
        intro e he
        rcases hall e he with h | h <;> simp [h]
      rw [hl, ht, hb]
      decide
    · have hl : entries.any (fun e => entryCategory e == some "lint") = false := by
        simp only [List.any_eq_false]
        intro e he
        rcases hall e he with h | h <;> simp [h]
      have ht : entries.any (fun e => entryCategory e == some "test") = false := by
        simp only [List.any_eq_false]
        intro e he
        rcases hall e he with h | h <;> simp [h]
      have hb : entries.any (fun e => entryCategory e == some "build") = true :=
        List.any_eq_true.mpr ⟨e₀, he₀, by simp [hc₀]⟩
      rw [hl, ht, hb]
      decide
  · intro entries c₁ c₂ hne hex₁ hex₂
    obtain ⟨e₁, he₁, hc₁⟩ := hex₁
    obtain ⟨e₂, he₂, hc₂⟩ := hex₂
    rw [classify_by_any]
    have any_of : ∀ c : String, (∃ e ∈ entries, entryCategory e = some c) →
        entries.any (fun e => entryCategory e == some c) = true := by
      rintro c ⟨e, he, hc⟩
      exact List.any_eq_true.mpr ⟨e, he, by simp [hc]⟩
    rcases hrange3 e₁ c₁ hc₁ with rfl | rfl | rfl <;>
      rcases hrange3 e₂ c₂ hc₂ with rfl | rfl | rfl <;>
        first
        | exact absurd rfl hne
        | (rw [any_of _ ⟨e₁, he₁, hc₁⟩, any_of _ ⟨e₂, he₂, hc₂⟩]
           revert hne
           cases entries.any (fun e => entryCategory e == some "lint") <;>
             cases entries.any (fun e => entryCategory e == some "test") <;>
               cases entries.any (fun e => entryCategory e == some "build") <;>
                 intro _ <;> decide)
  · intro e entries h
    simp only [classifyCIFailure, List.foldl_cons, h]
    rw [show addCat ⟨false, false, false⟩ none = ⟨false, false, false⟩ from by decide]
  · intro e h
    simp only [entryCategory]
    rw [if_neg h]

/-- C8 witness: the single-category rule applied to a lone failing
test-named check. -/
theorem C8_classifyCIFailure_categories_witness :
    classifyCIFailure [⟨"CheckRun", "jest unit", "", "", "FAILURE", ""⟩] = "test" :=
  C8_classifyCIFailure_categories.2.1 _ "test" (by decide) (by decide)

theorem IsOpen_snd (cb : CircuitBreaker) (s : String) :
    (cb.IsOpen s).2 = decide (0 < cb.skipsRemaining s) := by
  by_cases h : 0 < cb.skipsRemaining s
  · simp [CircuitBreaker.IsOpen, h]
  · simp [CircuitBreaker.IsOpen, h]

theorem RecordSuccess_skips_nonpos (cb : CircuitBreaker) (s : String) :
    (cb.RecordSuccess s).skipsRemaining s ≤ 0 := by
  simp only [CircuitBreaker.RecordSuccess]
  split_ifs with h1 h2 h2 <;> simp_all [updateMap]

theorem recordFailureN_state (cb : CircuitBreaker) (s : String) (ft sr : Nat)
    (hft : 1 ≤ ft)
    (hthr : cb.failureThreshold = (ft : Int)) (hruns : cb.skipRuns = (sr : Int))
    (hf0 : cb.failures s = 0) (hsk0 : cb.skipsRemaining s = 0) :
    ∀ k : Nat, k ≤ ft →
      (recordFailureN cb s k).failures s = (k : Int) ∧
      (recordFailureN cb s k).skipsRemaining s = (if k = ft then (sr : Int) else 0) ∧
      (recordFailureN cb s k).failureThreshold = (ft : Int) ∧
      (recordFailureN cb s k).skipRuns = (sr : Int) := by
  intro k
  induction k with
  | zero =>
    intro _
    refine ⟨hf0, ?_, hthr, hruns⟩
    rw [if_neg (by omega)]
    exact hsk0
  | succ k ih =>
    intro hk
    obtain ⟨ihf, ihs, ihthr, ihruns⟩ := ih (by omega)
    have hks : k ≠ ft := by omega
    rw [if_neg hks] at ihs
    simp only [recordFailureN, CircuitBreaker.RecordFailure, ihf, ihthr, ihruns]
    by_cases hk1 : k + 1 = ft
    · rw [if_pos (And.intro (show (k : Int) + 1 ≥ (ft : Int) by omega) ihs)]
      refine ⟨by simp [updateMap, Nat.cast_add, Nat.cast_one], ?_, rfl, rfl⟩
      simp [updateMap, hk1]
    · rw [if_neg (fun hc => absurd hc.1 (show ¬((k : Int) + 1 ≥ (ft : Int)) by omega))]
      refine ⟨by simp [updateMap, Nat.cast_add, Nat.cast_one], ?_, rfl, rfl⟩
      simp [ihs, hk1]

theorem isOpenIter_skips (cb : CircuitBreaker) (s : String) (r : Int)
    (hr : cb.skipsRemaining s = r) (hr0 : 0 ≤ r) :
    ∀ n : Nat, ((n : Int) ≤ r → (isOpenIter cb s n).skipsRemaining s = r - n) ∧
      (r ≤ (n : Int) → (isOpenIter cb s n).skipsRemaining s = 0) := by
  intro n
  induction n with
  | zero =>
    refine ⟨fun _ => ?_, fun h0 => ?_⟩
    · simp only [isOpenIter, hr]
      omega
    · simp only [isOpenIter, hr]
      omega
  | succ n ih =>
    refine ⟨fun h => ?_, fun h => ?_⟩
    · have hn : (n : Int) ≤ r := by push_cast at h ⊢; omega
      have hs := ih.1 hn
      simp only [isOpenIter, CircuitBreaker.IsOpen, hs]
      rw [if_pos (show r - (n : Int) > 0 by push_cast at h; omega)]
      by_cases hz : r - (n : Int) - 1 = 0
      · rw [if_pos hz]
        simp only [updateMap, if_pos rfl]
        push_cast
        omega
      · rw [if_neg hz]
        simp only [updateMap, if_pos rfl]
        push_cast
        omega
    · by_cases hn : r ≤ (n : Int)
      · have hs := ih.2 hn
        simp only [isOpenIter, CircuitBreaker.IsOpen, hs]
        rw [if_neg (by omega : ¬((0 : Int) > 0))]
        exact hs
      · have hs := ih.1 (by omega)
        simp only [isOpenIter, CircuitBreaker.IsOpen, hs]
        rw [if_pos (by omega : r - (n : Int) > 0),
          if_pos (show r - (n : Int) - 1 = 0 by push_cast at h; omega)]
        simp only [updateMap, if_pos rfl, if_true]
        push_cast at h hn ⊢
        omega

/-- C2: for thresholds at least 1 and a fresh subject, the breaker stays
closed for the first `failureThreshold - 1` consecutive failures, the
`failureThreshold`-th failure opens it, `IsOpen` then reports open for
exactly `skipRuns` consecutive calls before reporting closed, and a
`RecordSuccess` at any point makes the immediately following `IsOpen`
report closed. -/
theorem C2_circuitBreaker_window : ∀ (cb : CircuitBreaker) (s : String) (ft sr : Nat),
    1 ≤ ft → 1 ≤ sr →
    cb.failureThreshold = (ft : Int) → cb.skipRuns = (sr : Int) →
    cb.failures s = 0 → cb.skipsRemaining s = 0 →
    ((∀ k, k < ft → ((recordFailureN cb s k).IsOpen s).2 = false) ∧
     (∀ n : Nat, (((isOpenIter (recordFailureN cb s ft) s n).IsOpen s).2 = true ↔ n < sr)) ∧
     (∀ cb' : CircuitBreaker, ((cb'.RecordSuccess s).IsOpen s).2 = false)) := by
  intro cb s ft sr hft hsr hthr hruns hf0 hsk0
  refine ⟨?_, ?_, ?_⟩
  · intro k hk
    obtain ⟨_, hskips, _, _⟩ :=
      recordFailureN_state cb s ft sr hft hthr hruns hf0 hsk0 k (le_of_lt hk)
    rw [if_neg (by omega)] at hskips
    rw [IsOpen_snd, hskips]
    decide
  · intro n
    obtain ⟨_, hskips, _, _⟩ :=
      recordFailureN_state cb s ft sr hft hthr hruns hf0 hsk0 ft le_rfl
    rw [if_pos rfl] at hskips
    have hiter := isOpenIter_skips (recordFailureN cb s ft) s (sr : Int) hskips (by positivity) n
    rw [IsOpen_snd]
    by_cases hn : n < sr
    · have hstate := hiter.1 (by omega)
      rw [hstate]
      constructor
      · intro _
        exact hn
      · intro _
        simp only [decide_eq_true_eq]
        omega
    · have hstate := hiter.2 (by omega)
      rw [hstate]
      constructor
      · intro hc
        simp only [decide_eq_true_eq] at hc
        omega
      · intro hc
        exact absurd hc hn
  · intro cb'
    have := RecordSuccess_skips_nonpos cb' s
    rw [IsOpen_snd]
    exact decide_eq_false (by omega)

/-- C2 witness: a threshold-2, skip-2 breaker on a fresh subject: closed
after one failure, open on the first two probes after the second failure,
closed on the third probe, and closed immediately after a success. -/
theorem C2_circuitBreaker_window_witness :
    ((recordFailureN (NewCircuitBreaker 2 2) "pr" 1).IsOpen "pr").2 = false ∧
    ((isOpenIter (recordFailureN (NewCircuitBreaker 2 2) "pr" 2) "pr" 0).IsOpen "pr").2 = true ∧
    ((isOpenIter (recordFailureN (NewCircuitBreaker 2 2) "pr" 2) "pr" 1).IsOpen "pr").2 = true ∧
    ((isOpenIter (recordFailureN (NewCircuitBreaker 2 2) "pr" 2) "pr" 2).IsOpen "pr").2 = false ∧
    (((NewCircuitBreaker 2 2).RecordSuccess "pr").IsOpen "pr").2 = false := by
  obtain ⟨ha, hb, hc⟩ := C2_circuitBreaker_window (NewCircuitBreaker 2 2) "pr" 2 2
    (by decide) (by decide) rfl rfl rfl rfl
  exact ⟨ha 1 (by decide), (hb 0).mpr (by decide), (hb 1).mpr (by decide),
    Bool.eq_false_iff.mpr (fun hcc => absurd ((hb 2).mp hcc) (by decide)),
    hc (NewCircuitBreaker 2 2)⟩

/-- C10: breaker subjects are isolated: operations on one subject leave the
other subject's failure count and skip budget (and hence its next `IsOpen`
verdict) unchanged, and probing a subject with no skip budget reports closed
and leaves the whole breaker state untouched. -/
theorem C10_breaker_isolation : ∀ (cb : CircuitBreaker) (a b : String), a ≠ b →
    ((cb.RecordFailure a).failures b = cb.failures b ∧
     (cb.RecordFailure a).skipsRemaining b = cb.skipsRemaining b) ∧
    ((cb.RecordSuccess a).failures b = cb.failures b ∧
     (cb.RecordSuccess a).skipsRemaining b = cb.skipsRemaining b) ∧
    (((cb.IsOpen a).1).failures b = cb.failures b ∧
     ((cb.IsOpen a).1).skipsRemaining b = cb.skipsRemaining b) ∧
    (((cb.RecordFailure a).IsOpen b).2 = (cb.IsOpen b).2 ∧
     ((cb.RecordSuccess a).IsOpen b).2 = (cb.IsOpen b).2 ∧
     (((cb.IsOpen a).1).IsOpen b).2 = (cb.IsOpen b).2) ∧
    (cb.skipsRemaining b = 0 → cb.IsOpen b = (cb, false)) := by
  intro cb a b hab
  have hba : ¬(b = a) := fun hc => hab hc.symm
  have hrf_f : (cb.RecordFailure a).failures b = cb.failures b := by
    simp only [CircuitBreaker.RecordFailure]
    split_ifs <;> simp [updateMap, hba]
  have hrf_s : (cb.RecordFailure a).skipsRemaining b = cb.skipsRemaining b := by
    simp only [CircuitBreaker.RecordFailure]
    split_ifs <;> simp [updateMap, hba]
  have hrs_f : (cb.RecordSuccess a).failures b = cb.failures b := by
    simp only [CircuitBreaker.RecordSuccess]
    split_ifs <;> simp [updateMap, hba]
  have hrs_s : (cb.RecordSuccess a).skipsRemaining b = cb.skipsRemaining b := by
    simp only [CircuitBreaker.RecordSuccess]
    split_ifs <;> simp [updateMap, hba]
  have hio_f : ((cb.IsOpen a).1).failures b = cb.failures b := by
    simp only [CircuitBreaker.IsOpen]
    split_ifs <;> simp [updateMap, hba]
  have hio_s : ((cb.IsOpen a).1).skipsRemaining b = cb.skipsRemaining b := by
    simp only [CircuitBreaker.IsOpen]
    split_ifs <;> simp [updateMap, hba]
  refine ⟨⟨hrf_f, hrf_s⟩, ⟨hrs_f, hrs_s⟩, ⟨hio_f, hio_s⟩, ⟨?_, ?_, ?_⟩, ?_⟩
  · rw [IsOpen_snd, IsOpen_snd, hrf_s]
  · rw [IsOpen_snd, IsOpen_snd, hrs_s]
  · rw [IsOpen_snd, IsOpen_snd, hio_s]
  · intro h0
    simp [CircuitBreaker.IsOpen, h0]

/-- C10 witness: the isolation theorem applied to two concrete subjects of a
fresh threshold-3, skip-5 breaker. -/
theorem C10_breaker_isolation_witness :
    ((NewCircuitBreaker 3 5).RecordFailure "a").skipsRemaining "b" =
      (NewCircuitBreaker 3 5).skipsRemaining "b" ∧
    (NewCircuitBreaker 3 5).IsOpen "b" = (NewCircuitBreaker 3 5, false) :=
  ⟨(C10_breaker_isolation _ "a" "b" (by decide)).1.2,
   (C10_breaker_isolation _ "a" "b" (by decide)).2.2.2.2 rfl⟩

/-- C4: `classifyError` matches its reference definition: `nil` (`none`)
yields Unknown; a lowercased message containing any permanent indicator is
Permanent (the permanent list is screened first, so a transient indicator in
the same message is irrelevant); with no permanent indicator, a transient
indicator yields Transient; a message matching neither list also defaults to
Transient. -/
theorem C4_classifyError_reference :
    classifyError none = .Unknown ∧
    (∀ msg : String,
      (∃ i ∈ permanentIndicators, stringsContains (stringsToLower msg) i = true) →
      classifyError (some msg) = .Permanent) ∧
    (∀ msg : String,
      (∀ i ∈ permanentIndicators, stringsContains (stringsToLower msg) i = false) →
      (∃ i ∈ transientIndicators, stringsContains (stringsToLower msg) i = true) →
      classifyError (some msg) = .Transient) ∧
    (∀ msg : String,
      (∀ i ∈ permanentIndicators, stringsContains (stringsToLower msg) i = false) →
      (∀ i ∈ transientIndicators, stringsContains (stringsToLower msg) i = false) →
      classifyError (some msg) = .Transient) := by
  refine ⟨rfl, ?_, ?_, ?_⟩
  · intro msg h
    obtain ⟨i, hi, hc⟩ := h
    have hany : permanentIndicators.any
        (fun indicator => stringsContains (stringsToLower msg) indicator) = true :=
      List.any_eq_true.mpr ⟨i, hi, hc⟩
    simp [classifyError, hany]
  · intro msg hperm htrans
    obtain ⟨i, hi, hc⟩ := htrans
    have hanyp : permanentIndicators.any
        (fun indicator => stringsContains (stringsToLower msg) indicator) = false :=
      List.any_eq_false.mpr (fun i hi => by simp [hperm i hi])
    have hanyt : transientIndicators.any
        (fun indicator => stringsContains (stringsToLower msg) indicator) = true :=
      List.any_eq_true.mpr ⟨i, hi, hc⟩
    simp [classifyError, hanyp, hanyt]
  · intro msg hperm htrans
    have hanyp : permanentIndicators.any
        (fun indicator => stringsContains (stringsToLower msg) indicator) = false :=
      List.any_eq_false.mpr (fun i hi => by simp [hperm i hi])
    have hanyt : transientIndicators.any
        (fun indicator => stringsContains (stringsToLower msg) indicator) = false :=
      List.any_eq_false.mpr (fun i hi => by simp [htrans i hi])
    simp [classifyError, hanyp, hanyt]

/-- C4 witness: a message carrying both a permanent indicator (`not found`)
and a transient indicator (`timeout`) classifies Permanent. -/
theorem C4_classifyError_reference_witness :
    classifyError (some "repo Not Found after timeout") = .Permanent :=
  C4_classifyError_reference.2.1 _ (by decide)

theorem retryLoopE_le (fn : Nat → Option String) :
    ∀ (r a : Nat) (le : Option String), (retryLoopE fn a r le).2 ≤ r := by
  intro r
  induction r with
  | zero => intro a le; simp [retryLoopE]
  | succ r ih =>
    intro a le
    cases hfa : fn a with
    | none => simp [retryLoopE, hfa]
    | some e =>
      simp only [retryLoopE, hfa]
      split_ifs with hp
      · simp
      · simpa using Nat.succ_le_succ (ih (a + 1) (some e))

theorem retryLoopE_success (fn : Nat → Option String) :
    ∀ (k a r : Nat) (le : Option String), k < r →
      (∀ i, a ≤ i → i < a + k → ∃ e, fn i = some e ∧ classifyError (some e) ≠ .Permanent) →
      fn (a + k) = none →
      retryLoopE fn a r le = (none, k + 1) := by
  intro k
  induction k with
  | zero =>
    intro a r le hr hpre hsucc
    obtain ⟨r', rfl⟩ : ∃ r', r = r' + 1 := ⟨r - 1, by omega⟩
    rw [Nat.add_zero] at hsucc
    simp [retryLoopE, hsucc]
  | succ k ih =>
    intro a r le hr hpre hsucc
    obtain ⟨r', rfl⟩ : ∃ r', r = r' + 1 := ⟨r - 1, by omega⟩
    obtain ⟨e, hfa, hnp⟩ := hpre a le_rfl (by omega)
    simp only [retryLoopE, hfa]
    rw [if_neg hnp]
    have hrec := ih (a + 1) r' (some e) (by omega)
      (fun i h1 h2 => hpre i (by omega) (by omega))
      (by rw [show a + 1 + k = a + (k + 1) by omega]; exact hsucc)
    rw [hrec]

theorem retryLoopE_permanent (fn : Nat → Option String) :
    ∀ (k a r : Nat) (le : Option String) (e : String), k < r →
      (∀ i, a ≤ i → i < a + k → ∃ e', fn i = some e' ∧ classifyError (some e') ≠ .Permanent) →
      fn (a + k) = some e → classifyError (some e) = .Permanent →
      retryLoopE fn a r le = (some e, k + 1) := by
  intro k
  induction k with
  | zero =>
    intro a r le e hr hpre hfail hp
    obtain ⟨r', rfl⟩ : ∃ r', r = r' + 1 := ⟨r - 1, by omega⟩
    rw [Nat.add_zero] at hfail
    simp only [retryLoopE, hfail]
    rw [if_pos hp]
  | succ k ih =>
    intro a r le e hr hpre hfail hp
    obtain ⟨r', rfl⟩ : ∃ r', r = r' + 1 := ⟨r - 1, by omega⟩
    obtain ⟨e', hfa, hnp⟩ := hpre a le_rfl (by omega)
    simp only [retryLoopE, hfa]
    rw [if_neg hnp]
    have hrec := ih (a + 1) r' (some e') e (by omega)
      (fun i h1 h2 => hpre i (by omega) (by omega))
      (by rw [show a + 1 + k = a + (k + 1) by omega]; exact hfail) hp
    rw [hrec]

theorem retryLoopE_exhaust (fn : Nat → Option String) :
    ∀ (r a : Nat) (le : Option String), 1 ≤ r →
      (∀ i, a ≤ i → i < a + r → ∃ e, fn i = some e ∧ classifyError (some e) ≠ .Permanent) →
      retryLoopE fn a r le = (fn (a + r - 1), r) := by
  intro r
  induction r with
  | zero => intro a le h; omega
  | succ r ih =>
    intro a le _ hall
    obtain ⟨e, hfa, hnp⟩ := hall a le_rfl (by omega)
    simp only [retryLoopE, hfa]
    rw [if_neg hnp]
    by_cases hr : 1 ≤ r
    · have hrec := ih (a + 1) (some e) hr (fun i h1 h2 => hall i (by omega) (by omega))
      rw [hrec, show a + 1 + r - 1 = a + (r + 1) - 1 by omega]
    · have hr0 : r = 0 := by omega
      subst hr0
      simp [retryLoopE, hfa]

theorem retryLoopR_le {T : Type} [Inhabited T] (fn : Nat → T × Option String) :
    ∀ (r a : Nat) (le : Option String), (retryLoopR fn a r le).2 ≤ r := by
  intro r
  induction r with
  | zero => intro a le; simp [retryLoopR]
  | succ r ih =>
    intro a le
    cases hfa : (fn a).2 with
    | none => simp [retryLoopR, hfa]
    | some e =>
      simp only [retryLoopR, hfa]
      split_ifs with hp
      · simp
      · simpa using Nat.succ_le_succ (ih (a + 1) (some e))

theorem retryLoopR_success {T : Type} [Inhabited T] (fn : Nat → T × Option String) :
    ∀ (k a r : Nat) (le : Option String), k < r →
      (∀ i, a ≤ i → i < a + k → ∃ e, (fn i).2 = some e ∧ classifyError (some e) ≠ .Permanent) →
      (fn (a + k)).2 = none →
      retryLoopR fn a r le = (((fn (a + k)).1, none), k + 1) := by
  intro k
  induction k with
  | zero =>
    intro a r le hr hpre hsucc
    obtain ⟨r', rfl⟩ : ∃ r', r = r' + 1 := ⟨r - 1, by omega⟩
    rw [Nat.add_zero] at hsucc ⊢
    simp [retryLoopR, hsucc]
  | succ k ih =>
    intro a r le hr hpre hsucc
    obtain ⟨r', rfl⟩ : ∃ r', r = r' + 1 := ⟨r - 1, by omega⟩
    obtain ⟨e, hfa, hnp⟩ := hpre a le_rfl (by omega)
    simp only [retryLoopR, hfa]
    rw [if_neg hnp]
    have hrec := ih (a + 1) r' (some e) (by omega)
      (fun i h1 h2 => hpre i (by omega) (by omega))
      (by rw [show a + 1 + k = a + (k + 1) by omega]; exact hsucc)
    rw [hrec, show a + 1 + k = a + (k + 1) by omega]

theorem retryLoopR_permanent {T : Type} [Inhabited T] (fn : Nat → T × Option String) :
    ∀ (k a r : Nat) (le : Option String) (e : String), k < r →
      (∀ i, a ≤ i → i < a + k →
        ∃ e', (fn i).2 = some e' ∧ classifyError (some e') ≠ .Permanent) →
      (fn (a + k)).2 = some e → classifyError (some e) = .Permanent →
      retryLoopR fn a r le = ((default, some e), k + 1) := by
  intro k
  induction k with
  | zero =>
    intro a r le e hr hpre hfail hp
    obtain ⟨r', rfl⟩ : ∃ r', r = r' + 1 := ⟨r - 1, by omega⟩
    rw [Nat.add_zero] at hfail
    simp only [retryLoopR, hfail]
    rw [if_pos hp]
  | succ k ih =>
    intro a r le e hr hpre hfail hp
    obtain ⟨r', rfl⟩ : ∃ r', r = r' + 1 := ⟨r - 1, by omega⟩
    obtain ⟨e', hfa, hnp⟩ := hpre a le_rfl (by omega)
    simp only [retryLoopR, hfa]
    rw [if_neg hnp]
    have hrec := ih (a + 1) r' (some e') e (by omega)
      (fun i h1 h2 => hpre i (by omega) (by omega))
      (by rw [show a + 1 + k = a + (k + 1) by omega]; exact hfail) hp
    rw [hrec]

theorem retryLoopR_exhaust {T : Type} [Inhabited T] (fn : Nat → T × Option String) :
    ∀ (r a : Nat) (le : Option String), 1 ≤ r →
      (∀ i, a ≤ i → i < a + r → ∃ e, (fn i).2 = some e ∧ classifyError (some e) ≠ .Permanent) →
      retryLoopR fn a r le = ((default, (fn (a + r - 1)).2), r) := by
  intro r
  induction r with
  | zero => intro a le h; omega
  | succ r ih =>
    intro a le _ hall
    obtain ⟨e, hfa, hnp⟩ := hall a le_rfl (by omega)
    simp only [retryLoopR, hfa]
    rw [if_neg hnp]
    by_cases hr : 1 ≤ r
    · have hrec := ih (a + 1) (some e) hr (fun i h1 h2 => hall i (by omega) (by omega))
      rw [hrec, show a + 1 + r - 1 = a + (r + 1) - 1 by omega]
    · have hr0 : r = 0 := by omega
      subst hr0
      simp [retryLoopR, hfa]

/-- C5: both retry entry points invoke the operation at most
`maxAttempts` times; an attempt that succeeds after only non-permanent
failures ends the loop at that attempt with its result; an attempt failing
with a Permanent-classified error ends the loop at that attempt with that
error; and when every attempt fails non-permanently the error of the last
attempt is returned after exactly `maxAttempts` invocations. -/
theorem C5_retry_policy_bounds :
    (∀ (fn : Nat → Option String) (cfg : RetryConfig), retryCallsE fn cfg ≤ cfg.maxAttempts) ∧
    (∀ (T : Type) (instT : Inhabited T) (fn : Nat → T × Option String) (cfg : RetryConfig),
      @retryCallsR T instT fn cfg ≤ cfg.maxAttempts) ∧
    (∀ (fn : Nat → Option String) (cfg : RetryConfig) (j : Nat), 1 ≤ j → j ≤ cfg.maxAttempts →
      (∀ i, 1 ≤ i → i < j → ∃ e, fn i = some e ∧ classifyError (some e) ≠ .Permanent) →
      fn j = none →
      Retryable fn cfg = none ∧ retryCallsE fn cfg = j) ∧
    (∀ (T : Type) (instT : Inhabited T) (fn : Nat → T × Option String) (cfg : RetryConfig)
      (j : Nat), 1 ≤ j → j ≤ cfg.maxAttempts →
      (∀ i, 1 ≤ i → i < j → ∃ e, (fn i).2 = some e ∧ classifyError (some e) ≠ .Permanent) →
      (fn j).2 = none →
      @RetryableWithResult T instT fn cfg = ((fn j).1, none) ∧ @retryCallsR T instT fn cfg = j) ∧
    (∀ (fn : Nat → Option String) (cfg : RetryConfig) (j : Nat) (e : String),
      1 ≤ j → j ≤ cfg.maxAttempts →
      (∀ i, 1 ≤ i → i < j → ∃ e', fn i = some e' ∧ classifyError (some e') ≠ .Permanent) →
      fn j = some e → classifyError (some e) = .Permanent →
      Retryable fn cfg = some e ∧ retryCallsE fn cfg = j) ∧
    (∀ (T : Type) (instT : Inhabited T) (fn : Nat → T × Option String) (cfg : RetryConfig)
      (j : Nat) (e : String), 1 ≤ j → j ≤ cfg.maxAttempts →
      (∀ i, 1 ≤ i → i < j → ∃ e', (fn i).2 = some e' ∧ classifyError (some e') ≠ .Permanent) →
      (fn j).2 = some e → classifyError (some e) = .Permanent →
      @RetryableWithResult T instT fn cfg = (instT.default, some e) ∧
        @retryCallsR T instT fn cfg = j) ∧
    (∀ (fn : Nat → Option String) (cfg : RetryConfig), 1 ≤ cfg.maxAttempts →
      (∀ i, 1 ≤ i → i ≤ cfg.maxAttempts →
        ∃ e, fn i = some e ∧ classifyError (some e) ≠ .Permanent) →
      Retryable fn cfg = fn cfg.maxAttempts ∧ retryCallsE fn cfg = cfg.maxAttempts) ∧
    (∀ (T : Type) (instT : Inhabited T) (fn : Nat → T × Option String) (cfg : RetryConfig),
      1 ≤ cfg.maxAttempts →
      (∀ i, 1 ≤ i → i ≤ cfg.maxAttempts →
        ∃ e, (fn i).2 = some e ∧ classifyError (some e) ≠ .Permanent) →
      @RetryableWithResult T instT fn cfg = (instT.default, (fn cfg.maxAttempts).2) ∧
        @retryCallsR T instT fn cfg = cfg.maxAttempts) := by
  refine ⟨?_, ?_, ?_, ?_, ?_, ?_, ?_, ?_⟩
  · intro fn cfg
    exact retryLoopE_le fn cfg.maxAttempts 1 none
  · intro T instT fn cfg
    exact retryLoopR_le fn cfg.maxAttempts 1 none
  · intro fn cfg j hj1 hj2 hpre hsucc
    have hk := retryLoopE_success fn (j - 1) 1 cfg.maxAttempts none (by omega)
      (fun i h1 h2 => hpre i h1 (by omega))
      (by rw [show 1 + (j - 1) = j by omega]; exact hsucc)
    refine ⟨by rw [Retryable, hk], ?_⟩
    rw [retryCallsE, hk]
    show j - 1 + 1 = j
    omega
  · intro T instT fn cfg j hj1 hj2 hpre hsucc
    have hk := retryLoopR_success fn (j - 1) 1 cfg.maxAttempts none (by omega)
      (fun i h1 h2 => hpre i h1 (by omega))
      (by rw [show 1 + (j - 1) = j by omega]; exact hsucc)
    rw [show 1 + (j - 1) = j by omega] at hk
    refine ⟨by rw [RetryableWithResult, hk], ?_⟩
    rw [retryCallsR, hk]
    show j - 1 + 1 = j
    omega
  · intro fn cfg j e hj1 hj2 hpre hfail hp
    have hk := retryLoopE_permanent fn (j - 1) 1 cfg.maxAttempts none e (by omega)
      (fun i h1 h2 => hpre i h1 (by omega))
      (by rw [show 1 + (j - 1) = j by omega]; exact hfail) hp
    refine ⟨by rw [Retryable, hk], ?_⟩
    rw [retryCallsE, hk]
    show j - 1 + 1 = j
    omega
  · intro T instT fn cfg j e hj1 hj2 hpre hfail hp
    have hk := retryLoopR_permanent fn (j - 1) 1 cfg.maxAttempts none e (by omega)
      (fun i h1 h2 => hpre i h1 (by omega))
      (by rw [show 1 + (j - 1) = j by omega]; exact hfail) hp
    refine ⟨by rw [RetryableWithResult, hk], ?_⟩
    rw [retryCallsR, hk]
    show j - 1 + 1 = j
    omega
  · intro fn cfg hmax hall
    have hk := retryLoopE_exhaust fn cfg.maxAttempts 1 none hmax
      (fun i h1 h2 => hall i h1 (by omega))
    rw [show 1 + cfg.maxAttempts - 1 = cfg.maxAttempts by omega] at hk
    exact ⟨by rw [Retryable, hk], by rw [retryCallsE, hk]⟩
  · intro T instT fn cfg hmax hall
    have hk := retryLoopR_exhaust fn cfg.maxAttempts 1 none hmax
      (fun i h1 h2 => hall i h1 (by omega))
    rw [show 1 + cfg.maxAttempts - 1 = cfg.maxAttempts by omega] at hk
    exact ⟨by rw [RetryableWithResult, hk], by rw [retryCallsR, hk]⟩

/-- C5 witness: an operation that fails once with a transient error and then
succeeds is invoked exactly twice under the default config; an operation
whose transient failures never stop is invoked exactly three times and its
last error is returned. -/
theorem C5_retry_policy_bounds_witness :
    (Retryable (fun k => if k = 1 then some "timeout" else none) defaultRetryConfig = none ∧
      retryCallsE (fun k => if k = 1 then some "timeout" else none) defaultRetryConfig = 2) ∧
    (Retryable (fun _ => some "rate limit") defaultRetryConfig = some "rate limit" ∧
      retryCallsE (fun _ => some "rate limit") defaultRetryConfig = 3) :=
  ⟨C5_retry_policy_bounds.2.2.1 (fun k => if k = 1 then some "timeout" else none)
      defaultRetryConfig 2 (by decide) (by decide)
      (fun i h1 h2 => by
        have hi : i = 1 := by omega
        subst hi
        exact ⟨"timeout", rfl, by decide⟩)
      (by decide),
   C5_retry_policy_bounds.2.2.2.2.2.2.1 (fun _ => some "rate limit") defaultRetryConfig
      (by decide)
      (fun i h1 h2 => ⟨"rate limit", rfl, by decide⟩)⟩

/-- C6: the only backoff delay value the retry code ever forms is the one in
`Retryable`: `baseDelay * 2^(attempt-1)` clamped to `maxDelay` (500 ms and
1000 ms under the defaults for a twice-failing transient operation).  The
value is discarded without any wait: the observable behaviour of `Retryable`
(result and invocation count) is identical for any two configs that agree on
`maxAttempts` and differ arbitrarily in `baseDelay`/`maxDelay`, and
`RetryableWithResult` forms no delay at all. -/
theorem C6_backoff_delay_discarded :
    (∀ (cfg : RetryConfig) (attempt : Nat),
      retryDelay cfg attempt = min (cfg.baseDelay * 2 ^ (attempt - 1)) cfg.maxDelay) ∧
    retryComputedDelays (fun _ => some "timeout") defaultRetryConfig = [500, 1000] ∧
    Retryable (fun _ => some "timeout") defaultRetryConfig = some "timeout" ∧
    retryCallsE (fun _ => some "timeout") defaultRetryConfig = 3 ∧
    (∀ (fn : Nat → Option String) (n : Nat) (b₁ m₁ b₂ m₂ : Int),
      Retryable fn ⟨n, b₁, m₁⟩ = Retryable fn ⟨n, b₂, m₂⟩ ∧
      retryCallsE fn ⟨n, b₁, m₁⟩ = retryCallsE fn ⟨n, b₂, m₂⟩) ∧
    (∀ (T : Type) (instT : Inhabited T) (fn : Nat → T × Option String) (n : Nat)
      (b₁ m₁ b₂ m₂ : Int),
      @RetryableWithResult T instT fn ⟨n, b₁, m₁⟩ = @RetryableWithResult T instT fn ⟨n, b₂, m₂⟩) := by
  refine ⟨?_, by decide, by decide, by decide, ?_, ?_⟩
  · intro cfg attempt
    simp only [retryDelay]
    split_ifs with h
    · exact (min_eq_right (by omega)).symm
    · exact (min_eq_left (by omega)).symm
  · intro fn n b₁ m₁ b₂ m₂
    exact ⟨rfl, rfl⟩
  · intro T instT fn n b₁ m₁ b₂ m₂
    rfl

/-- C7: the dedup gate follows the spec's rules in order: no prior state
posts; the empty-hash sentinel posts; a changed hash posts; the same hash
inside the 2-hour window suppresses with a non-empty reason; the same hash
with the window elapsed posts again. -/
theorem C7_dedup_gate_rules :
    (∀ (currentHash : String) (now : Int),
      shouldPostToDiscord none currentHash now = (true, "")) ∧
    (∀ (st : runState) (now : Int), shouldPostToDiscord (some st) "" now = (true, "")) ∧
    (∀ (st : runState) (h : String) (now : Int), h ≠ "" → h ≠ st.hash →
      shouldPostToDiscord (some st) h now = (true, "")) ∧
    (∀ (st : runState) (h : String) (now : Int), h ≠ "" → h = st.hash →
      now - st.lastPostedAt < dedupWindowSeconds →
      (shouldPostToDiscord (some st) h now).1 = false ∧
        (shouldPostToDiscord (some st) h now).2 ≠ "") ∧
    (∀ (st : runState) (h : String) (now : Int), h ≠ "" → h = st.hash →
      dedupWindowSeconds ≤ now - st.lastPostedAt →
      shouldPostToDiscord (some st) h now = (true, "")) := by
  refine ⟨fun _ _ => rfl, ?_, ?_, ?_, ?_⟩
  · intro st now
    simp [shouldPostToDiscord]
  · intro st h now h1 h2
    simp only [shouldPostToDiscord]
    rw [if_neg h1, if_pos h2]
  · intro st h now h1 h2 h3
    simp only [shouldPostToDiscord]
    rw [if_neg h1, if_neg (by simpa using h2), if_pos h3]
    exact ⟨rfl, by decide⟩
  · intro st h now h1 h2 h3
    simp only [shouldPostToDiscord]
    rw [if_neg h1, if_neg (by simpa using h2), if_neg (by omega)]

/-- C7 witness: first-ever hash posts; the same hash one hour later
suppresses with a reason; the same hash three hours later posts again. -/
theorem C7_dedup_gate_rules_witness :
    shouldPostToDiscord none "h1" 0 = (true, "") ∧
    (shouldPostToDiscord (some ⟨"h1", 0⟩) "h1" 3600).1 = false ∧
    (shouldPostToDiscord (some ⟨"h1", 0⟩) "h1" 3600).2 ≠ "" ∧
    shouldPostToDiscord (some ⟨"h1", 0⟩) "h1" 10800 = (true, "") :=
  ⟨C7_dedup_gate_rules.1 "h1" 0,
   (C7_dedup_gate_rules.2.2.2.1 ⟨"h1", 0⟩ "h1" 3600 (by decide) rfl (by decide)).1,
   (C7_dedup_gate_rules.2.2.2.1 ⟨"h1", 0⟩ "h1" 3600 (by decide) rfl (by decide)).2,
   C7_dedup_gate_rules.2.2.2.2 ⟨"h1", 0⟩ "h1" 10800 (by decide) rfl (by decide)⟩

theorem strData_append (a b : String) : (a ++ b).data = a.data ++ b.data := by
  cases a
  cases b
  rfl

theorem strLen_append (a b : String) : strLen (a ++ b) = strLen a + strLen b := by
  simp only [strLen, strData_append, List.length_append]

theorem strLen_strTake (s : String) (n : Nat) : strLen (strTake s n) = min n (strLen s) := by
  simp only [strLen, strTake, List.length_take]

theorem hasSuffix_marker (x : String) :
    stringsHasSuffix (x ++ "\n(truncated)") "(truncated)" = true := by
  rw [stringsHasSuffix, strData_append]
  simp only [List.isSuffixOf_iff_suffix]
  rw [List.append_cons]
  exact List.suffix_append _ _

/-- C9 counterexample: a changes-requested side-channel alert built from a
1900-character review-comment body is handed to the transport at more than
1900 characters with no trailing truncation marker, so not every
over-length notification text is truncated before sending. -/
theorem C9_untruncated_alert_counterexample :
    1900 < strLen (discordMessageContent
      (reviewAlertMessage "https://github.com/misty-step/x/pull/1"
        (String.mk (List.replicate 1900 'a')))) ∧
    stringsHasSuffix (discordMessageContent
      (reviewAlertMessage "https://github.com/misty-step/x/pull/1"
        (String.mk (List.replicate 1900 'a')))) "(truncated)" = false := by
  have hc : strLen (String.mk (List.replicate 1900 'a')) = 1900 := by
    rw [strLen]
    exact List.length_replicate 1900 'a'
  constructor
  · simp only [discordMessageContent, reviewAlertMessage, strLen_append, hc]
    rw [show strLen "🔧 PR " = 5 from by decide,
      show strLen "https://github.com/misty-step/x/pull/1" = 38 from by decide,
      show strLen " has changes requested. Review comments:\n" = 41 from by decide,
      show strLen "\nAction needed: address review feedback." = 40 from by decide]
    omega
  · simp only [discordMessageContent, reviewAlertMessage]
    rw [stringsHasSuffix]
    by_contra hcon
    rw [Bool.not_eq_false] at hcon
    have hsuf := List.isSuffixOf_iff_suffix.mp hcon
    obtain ⟨t, ht⟩ := hsuf
    have hlast : (("🔧 PR " ++ "https://github.com/misty-step/x/pull/1" ++
        " has changes requested. Review comments:\n" ++ String.mk (List.replicate 1900 'a') ++
        "\nAction needed: address review feedback.").data).getLast? = some '.' := by
      rw [strData_append, List.getLast?_append]
      rw [show ("\nAction needed: address review feedback.").data.getLast? = some '.' from by
        decide]
      rfl
    rw [← ht, List.getLast?_append] at hlast
    rw [show ("(truncated)").data.getLast? = some ')' from by decide] at hlast
    simp at hlast

/-- C9 amended: the run summary and the error-alert digest are truncated to
their first 1890 characters plus a trailing `"\n(truncated)"` marker
whenever the assembled text exceeds 1900 characters (and sent as-is
otherwise), while `discordSendMessage` transmits whatever content it is
given verbatim — so the lint, review-comment and failure-ping alerts go out
untruncated. -/
theorem C9_truncation_amended :
    (∀ (out : runOutput) (merged commented skipped errs : Int),
      (strLen (rawDiscordSummary out merged commented skipped errs) ≤ 1900 →
        renderDiscordSummary out merged commented skipped errs =
          rawDiscordSummary out merged commented skipped errs) ∧
      (1900 < strLen (rawDiscordSummary out merged commented skipped errs) →
        renderDiscordSummary out merged commented skipped errs =
          strTake (rawDiscordSummary out merged commented skipped errs) 1890 ++
            "\n(truncated)" ∧
        stringsHasSuffix (renderDiscordSummary out merged commented skipped errs)
          "(truncated)" = true ∧
        strLen (renderDiscordSummary out merged commented skipped errs) = 1902)) ∧
    (∀ (out : runOutput) (errs : Int),
      (strLen (rawDiscordAlert out errs) ≤ 1900 →
        renderDiscordAlert out errs = rawDiscordAlert out errs) ∧
      (1900 < strLen (rawDiscordAlert out errs) →
        renderDiscordAlert out errs =
          strTake (rawDiscordAlert out errs) 1890 ++ "\n(truncated)" ∧
        stringsHasSuffix (renderDiscordAlert out errs) "(truncated)" = true ∧
        strLen (renderDiscordAlert out errs) = 1902)) ∧
    (∀ content : String, discordMessageContent content = content) := by
  refine ⟨?_, ?_, fun _ => rfl⟩
  · intro out merged commented skipped errs
    constructor
    · intro h
      simp only [renderDiscordSummary]
      rw [if_pos h]
    · intro h
      have heq : renderDiscordSummary out merged commented skipped errs =
          strTake (rawDiscordSummary out merged commented skipped errs) 1890 ++
            "\n(truncated)" := by
        simp only [renderDiscordSummary]
        rw [if_neg (by omega)]
      refine ⟨heq, ?_, ?_⟩
      · rw [heq]
        exact hasSuffix_marker _
      · rw [heq, strLen_append, strLen_strTake, min_eq_left (by omega),
          show strLen "\n(truncated)" = 12 from by decide]
  · intro out errs
    constructor
    · intro h
      simp only [renderDiscordAlert]
      rw [if_pos h]
    · intro h
      have heq : renderDiscordAlert out errs =
          strTake (rawDiscordAlert out errs) 1890 ++ "\n(truncated)" := by
        simp only [renderDiscordAlert]
        rw [if_neg (by omega)]
      refine ⟨heq, ?_, ?_⟩
      · rw [heq]
        exact hasSuffix_marker _
      · rw [heq, strLen_append, strLen_strTake, min_eq_left (by omega),
          show strLen "\n(truncated)" = 12 from by decide]

set_option maxRecDepth 8192 in
/-- C9 amended witness: an empty run's summary is short and goes out exactly
as assembled. -/
theorem C9_truncation_amended_witness :
    renderDiscordSummary ⟨true, "2025-01-01T00:00:00Z", "misty-step", 5, 72, false, []⟩ 0 0 0 0 =
      rawDiscordSummary ⟨true, "2025-01-01T00:00:00Z", "misty-step", 5, 72, false, []⟩ 0 0 0 0 :=
  (C9_truncation_amended.1 ⟨true, "2025-01-01T00:00:00Z", "misty-step", 5, 72, false, []⟩
    0 0 0 0).1 (by decide)
